import Mathlib

/-!
Shallow embedding of the floor connectivity / line-of-sight subsystem of the
haunts repository (house room/door topology, adjacency graph, Bresenham
rasterizer, LOS engine and fog-of-war field), together with theorems checking
the natural-language specification against it.

Conventions used throughout the embedding:
* Go `int` is modelled as `Int`; Go `/` and `%` on ints truncate toward zero,
  modelled with `Int.tdiv` / `Int.tmod` where they occur on possibly negative
  operands; nonnegative shifts such as `dx >> 1` are modelled as `dx / 2`.
* Go maps used as sets (`map[[2]int]bool`) are modelled as lists of keys with
  insert-if-absent semantics.
* Go pointer equality between `*house.Room` values (`r == r2`) is modelled as
  structural equality of the `Room` records; in every configuration the claims
  quantify over, distinct room pointers have distinct positions, so the two
  notions agree.
* Loops whose iterations each read and write only their own cell are embedded
  as pointwise updates; other loops become structural recursion or folds in
  iteration order.
-/

namespace Haunts

/-- Wall facings of a room (house.WallFacing from the source). -/
inductive WallFacing : Type where
  | NearLeft : WallFacing
  | NearRight : WallFacing
  | FarLeft : WallFacing
  | FarRight : WallFacing
deriving DecidableEq, Repr

export WallFacing (NearLeft NearRight FarLeft FarRight)

/-- A door: `doorDef` (Defname, Width) flattened with its `DoorInst`
(Facing, Pos, Opened), as in the source `Door` struct. -/
structure Door : Type where
  Defname : String
  Width : Int
  Facing : WallFacing
  Pos : Int
  Opened : Bool
deriving DecidableEq, Repr

/-- A furniture item as consumed by the LOS code: its `Pos()`, `Dims()` and
the `Blocks_los` flag. Modelled from the spec: the furniture definition type
is not among the provided sources; the spec (section 6) describes it as a
spatial occupancy source with a sight-blocking flag. -/
structure Furniture : Type where
  fx : Int
  fy : Int
  fdx : Int
  fdy : Int
  Blocks_los : Bool
deriving DecidableEq, Repr

/-- Room size (`room.Size.Dx` / `room.Size.Dy`). Modelled from the spec:
`roomDef` is not among the provided sources; the spec (section 3) gives a room
an integer `(Dx, Dy)` size. -/
structure RoomSize : Type where
  Dx : Int
  Dy : Int
deriving DecidableEq, Repr

/-- A room: placement `(X, Y)` and doors from `RoomInst`, size and per-cell
`CanHaveDoor` data from `roomDef` (the latter modelled from the spec, section
3: cells are "marked door-capable"). `Cell_data i j` is stored as the
`CanHaveDoor` boolean of cell `(i, j)`, indexed `[x][y]` as in the source. -/
structure Room : Type where
  X : Int
  Y : Int
  Size : RoomSize
  Cell_data : List (List Bool)
  Doors : List Door
  Furniture : List Furniture
deriving DecidableEq, Repr

/-- A floor is an ordered collection of rooms. -/
structure Floor : Type where
  Rooms : List Room
deriving DecidableEq, Repr

/-- `Cell_data[i][j].CanHaveDoor`. Out-of-range access (a Go panic) is
modelled as `false`; the claims only exercise in-range indices. -/
def cellCanHaveDoor (room : Room) (i j : Int) : Bool :=
  ((room.Cell_data.getD i.toNat []).getD j.toNat false)

/-- `count` successive integers starting at `lo`. -/
def intRangeAux (lo : Int) : Nat → List Int
  | 0 => []
  | count + 1 => lo :: intRangeAux (lo + 1) count

/-- The integers from `lo` to `hi` inclusive, in order (a Go
`for v := lo; v <= hi; v++` iteration domain). -/
def intRange (lo hi : Int) : List Int :=
  intRangeAux lo (hi + 1 - lo).toNat

/-- `furnitureAt` from src/game/los.go: first furniture of the room covering
room-relative cell `(x, y)`. -/
def furnitureAt (room : Room) (x y : Int) : Option Furniture :=
  room.Furniture.find? (fun f =>
    decide (x ≥ f.fx) && decide (x < f.fx + f.fdx) &&
    decide (y ≥ f.fy) && decide (y < f.fy + f.fdy))

/-- `roomAt` from src/game/los.go: first room of the floor covering floor
cell `(x, y)`. -/
def roomAt (floor : Floor) (x y : Int) : Option Room :=
  floor.Rooms.find? (fun room =>
    decide (x ≥ room.X) && decide (x < room.X + room.Size.Dx) &&
    decide (y ≥ room.Y) && decide (y < room.Y + room.Size.Dy))

/-- The facing deduced by `connected` from the room-relative transition
coordinates (the if/else chain over `x`, `x2`, `y`, `y2` after subtracting the
room offsets); `none` is the fail-safe "unrecognized transition" branch. -/
def deducedFacing (x y x2 y2 : Int) : Option WallFacing :=
  if x = 0 ∧ x2 ≠ 0 then some NearLeft
  else if y = 0 ∧ y2 ≠ 0 then some NearRight
  else if x ≠ 0 ∧ x2 = 0 then some FarRight
  else if y ≠ 0 ∧ y2 = 0 then some FarLeft
  else none

/-- The coordinate compared against a door's span in `connected`'s switch:
`pos = y` for NearLeft/FarRight doors and `pos = x` for NearRight/FarLeft
doors. -/
def wallCoord (facing : WallFacing) (x y : Int) : Int :=
  match facing with
  | NearLeft => y
  | FarRight => y
  | NearRight => x
  | FarLeft => x

/-- The door loop of `connected`: skip doors on other facings; for a door on
`facing` whose span `[Pos, Pos+Width)` contains the wall coordinate, return
its `Opened` flag; otherwise keep scanning, defaulting to `false`. -/
def connectedDoorScan (facing : WallFacing) (x y : Int) : List Door → Bool
  | [] => false
  | door :: rest =>
    if door.Facing ≠ facing then connectedDoorScan facing x y rest
    else
      let pos := wallCoord facing x y
      if door.Pos ≤ pos ∧ pos < door.Pos + door.Width then door.Opened
      else connectedDoorScan facing x y rest

/-- `connected` from src/game/los.go: same room is always connected;
otherwise deduce the facing from the room-relative transition and scan the
first room's doors. -/
def connected (r r2 : Room) (x y x2 y2 : Int) : Bool :=
  if r = r2 then true
  else
    match deducedFacing (x - r.X) (y - r.Y) (x2 - r2.X) (y2 - r2.Y) with
    | none => false
    | some facing => connectedDoorScan facing (x - r.X) (y - r.Y) r.Doors

/-- Version of the door-coordinate selection written from the words of the
spec (sections 4.1/8), for refinement comparison only: coverage tested with
"`x` for NearLeft/FarRight, `y` for NearRight/FarLeft" - the opposite of
`wallCoord`. -/
def wallCoordSpec (facing : WallFacing) (x y : Int) : Int :=
  match facing with
  | NearLeft => x
  | FarRight => x
  | NearRight => y
  | FarLeft => y

/-- `connected` as described by the spec's words (claim C2), for refinement
comparison with `connected`: identical except that the door span is tested
against `wallCoordSpec` instead of `wallCoord`. -/
def connectedSpecC2 (r r2 : Room) (x y x2 y2 : Int) : Bool :=
  if r = r2 then true
  else
    match deducedFacing (x - r.X) (y - r.Y) (x2 - r2.X) (y2 - r2.Y) with
    | none => false
    | some facing =>
      match r.Doors.find? (fun d =>
          d.Facing = facing ∧
          d.Pos ≤ wallCoordSpec facing (x - r.X) (y - r.Y) ∧
          wallCoordSpec facing (x - r.X) (y - r.Y) < d.Pos + d.Width) with
      | some d => d.Opened
      | none => false

/-- `canAddDoor` from the house editor source (src/unnamed/part_000): reject a
negative position; for the facing's wall, reject unless
`Pos + Width < wall length` and every cell at index `Pos` to `Pos + Width`
inclusive has `CanHaveDoor`; finally reject any overlap with an existing door
on the same facing. The two facing blocks and the door loop are compiled to
boolean conjunctions in source order. -/
def canAddDoor (room : Room) (door : Door) : Bool :=
  if door.Pos < 0 then false
  else
    let ok1 :=
      if door.Facing = FarLeft ∨ door.Facing = NearRight then
        if door.Pos + door.Width ≥ room.Size.Dx then false
        else
          let y : Int := if door.Facing = FarLeft then room.Size.Dy - 1 else 0
          (intRange door.Pos (door.Pos + door.Width)).all
            (fun pos => cellCanHaveDoor room pos y)
      else true
    let ok2 :=
      if door.Facing = FarRight ∨ door.Facing = NearLeft then
        if door.Pos + door.Width ≥ room.Size.Dy then false
        else
          let x : Int := if door.Facing = FarRight then room.Size.Dx - 1 else 0
          (intRange door.Pos (door.Pos + door.Width)).all
            (fun pos => cellCanHaveDoor room x pos)
      else true
    ok1 && ok2 &&
      room.Doors.all (fun other =>
        decide (other.Facing ≠ door.Facing) ||
        (!(decide (other.Pos ≥ door.Pos) && decide (other.Pos - door.Pos < door.Width)) &&
         !(decide (door.Pos ≥ other.Pos) && decide (door.Pos - other.Pos < other.Width))))

/-- `canAddDoor` written from the words of claim C6, for refinement
comparison only: `Pos ≥ 0`, the half-open span `[Pos, Pos+Width)` lies within
the wall length, every cell of that span has `CanHaveDoor`, and the span
overlaps no existing same-facing door's span. -/
def canAddDoorSpec (room : Room) (door : Door) : Bool :=
  let wallLen : Int :=
    if door.Facing = FarLeft ∨ door.Facing = NearRight then room.Size.Dx
    else room.Size.Dy
  let cellOk : Int → Bool :=
    if door.Facing = FarLeft ∨ door.Facing = NearRight then
      fun pos => cellCanHaveDoor room pos
        (if door.Facing = FarLeft then room.Size.Dy - 1 else 0)
    else
      fun pos => cellCanHaveDoor room
        (if door.Facing = FarRight then room.Size.Dx - 1 else 0) pos
  decide (0 ≤ door.Pos) &&
  decide (door.Pos + door.Width ≤ wallLen) &&
  (intRange door.Pos (door.Pos + door.Width - 1)).all cellOk &&
  room.Doors.all (fun other =>
    decide (other.Facing ≠ door.Facing) ||
    decide (other.Pos + other.Width ≤ door.Pos) ||
    decide (door.Pos + door.Width ≤ other.Pos))

/-- `MakeDoor` from the house editor source. Modelled from the spec: the
registry/loader is an opaque resolver (spec sections 1 and 6) mapping a
definition name to the door definition's `Width`; a freshly made door has
zero-valued instance fields (`Facing = NearLeft`, `Pos = 0`,
`Opened = false`). -/
def MakeDoor (reg : String → Int) (name : String) : Door :=
  { Defname := name, Width := reg name
    Facing := NearLeft, Pos := 0, Opened := false }

/-- `findRoomForDoor` from the house editor source: if the target room itself
rejects the door, fail; for a FarLeft (resp. FarRight) door, scan the floor
for a room immediately across the wall and give it the mirrored NearRight
(resp. NearLeft) door with the position adjusted by the rooms' offset; any
other facing falls through to the final `nil, nil`. -/
def findRoomForDoor (reg : String → Int) (f : Floor) (target : Room)
    (door : Door) : Option (Room × Door) :=
  if ¬ canAddDoor target door then none
  else if door.Facing = FarLeft then
    f.Rooms.findSome? (fun room =>
      if room.Y = target.Y + target.Size.Dy then
        let temp := { MakeDoor reg door.Defname with
                      Pos := door.Pos - (room.X - target.X)
                      Facing := NearRight }
        if canAddDoor room temp then some (room, temp) else none
      else none)
  else if door.Facing = FarRight then
    f.Rooms.findSome? (fun room =>
      if room.X = target.X + target.Size.Dx then
        let temp := { MakeDoor reg door.Defname with
                      Pos := door.Pos - (room.Y - target.Y)
                      Facing := NearLeft }
        if canAddDoor room temp then some (room, temp) else none
      else none)
  else none

/-- The floor-level `canAddDoor`: succeeds exactly when `findRoomForDoor`
found a partner room. -/
def floorCanAddDoor (reg : String → Int) (f : Floor) (target : Room)
    (door : Door) : Bool :=
  (findRoomForDoor reg f target door).isSome

/-- The cell appended by `bresenham` for loop coordinates `(cx, cy)`: swapped
back to `(cy, cx)` when the axes were exchanged for a steep line. -/
def swizzle (steep : Bool) (cx cy : Int) : Int × Int :=
  if steep then (cy, cx) else (cx, cy)

/-- The loop of `bresenham`: runs `fuel` iterations (the source loop steps
`cx` from `x` to `x2` one unit at a time, so it runs `|x2 - x| = dx` times,
which the caller passes as `fuel`), appending the current cell - swapped back
when `steep` - and updating the error accumulator; returns the produced cells
together with the final value of `cy` (read afterwards by the final append).
-/
def bresLoop (steep : Bool) (dx dy xstep ystep : Int) :
    Nat → Int → Int → Int → List (Int × Int) × Int
  | 0, _, cy, _ => ([], cy)
  | fuel + 1, cx, cy, err =>
    let pt : Int × Int := swizzle steep cx cy
    let err2 := err - dy
    let next :=
      if err2 < 0 then
        bresLoop steep dx dy xstep ystep fuel (cx + xstep) (cy + ystep) (err2 + dx)
      else
        bresLoop steep dx dy xstep ystep fuel (cx + xstep) cy err2
    (pt :: next.1, next.2)

/-- The body of `bresenham` after the steep test: absolute deltas of the
(possibly swapped) endpoints, error accumulator seeded with `dx >> 1`
(= `dx / 2`, `dx ≥ 0`), the stepping loop, and the final append of
`(x2, cy)` - all cells swapped back through `swizzle` when `steep`. -/
def bresenhamCore (steep : Bool) (x y x2 y2 : Int) : List (Int × Int) :=
  let dx := x2 - x
  let dx := if dx < 0 then -dx else dx
  let dy := y2 - y
  let dy := if dy < 0 then -dy else dy
  let err := dx / 2
  let xstep : Int := if x2 < x then -1 else 1
  let ystep : Int := if y2 < y then -1 else 1
  let res := bresLoop steep dx dy xstep ystep dx.toNat x y err
  res.1 ++ [swizzle steep x2 res.2]

/-- `bresenham` from src/game/los.go: when the line is steep
(`|y2 - y| > |x2 - x|`) both endpoints and the deltas are swapped and every
produced cell is swapped back; `bresenhamCore` performs the common loop. -/
def bresenham (x y x2 y2 : Int) : List (Int × Int) :=
  let dxa := x2 - x
  let dxa := if dxa < 0 then -dxa else dxa
  let dya := y2 - y
  let dya := if dya < 0 then -dya else dya
  if dya > dxa then bresenhamCore true y x y2 x2
  else bresenhamCore false x y x2 y2

/-- An entity as consumed by the LOS code. Modelled from the spec: the Entity
type is not among the provided sources; per spec section 3 it carries a
position (`Pos()`), a sight radius (`Stats.Sight()`), the cached `(losx,
losy)` position and the `los` set of visible floor cells (modelled as a list
of keys with insert-if-absent semantics). -/
structure Entity : Type where
  x : Int
  y : Int
  sight : Int
  losx : Int
  losy : Int
  los : List (Int × Int)
deriving DecidableEq, Repr

/-- The game state consumed by `Adjacent` and the LOS engine: the rooms of
`house.Floors[0]` and the entity list. -/
structure Game : Type where
  rooms : List Room
  Ents : List Entity
deriving DecidableEq, Repr

/-- `FromVertex` from src/game/los.go: peel room-sized blocks off `v` until
it indexes into a room, then decode `(room, x, y)`; out-of-range vertices
give `(nil, 0, 0)`. Go `%` and `/` truncate toward zero, hence `tmod` and
`tdiv`. -/
def FromVertex : List Room → Int → Option Room × Int × Int
  | [], _ => (none, 0, 0)
  | room :: rest, v =>
    let size := room.Size.Dx * room.Size.Dy
    if v ≥ size then FromVertex rest (v - size)
    else (some room,
          room.X + Int.tmod v room.Size.Dx,
          room.Y + Int.tdiv v room.Size.Dx)

/-- `ToVertex` from src/game/los.go: sum the sizes of rooms before the first
room containing `(x, y)` and add the cell's room-relative linear index; if no
room contains the cell the total size is returned. -/
def ToVertex : List Room → Int → Int → Int
  | [], _, _ => 0
  | room :: rest, x, y =>
    if x ≥ room.X ∧ y ≥ room.Y ∧
       x < room.X + room.Size.Dx ∧ y < room.Y + room.Size.Dy then
      (x - room.X) + (y - room.Y) * room.Size.Dx
    else room.Size.Dx * room.Size.Dy + ToVertex rest x y

/-- The `ent_occupied` map built at the top of `Adjacent`: whether some
entity stands at `(x, y)`. -/
def entOccupied (ents : List Entity) (x y : Int) : Bool :=
  ents.any (fun e => decide (e.x = x) && decide (e.y = y))

/-- `connected` with a possibly absent first room. At the one call site where
the source could pass a nil `*Room` (an out-of-range vertex in `Adjacent`,
which would make the Go code panic on `r.X`), the model fails closed. -/
def connectedO : Option Room → Room → Int → Int → Int → Int → Bool
  | some r, r2, x, y, x2, y2 => connected r r2 x y x2 y2
  | none, _, _, _, _, _ => false

/-- `connected` with a possibly absent second room (the reverse diagonal
check of `Adjacent`); same nil-panic convention as `connectedO`. -/
def connectedO2 : Room → Option Room → Int → Int → Int → Int → Bool
  | r, some r2, x, y, x2, y2 => connected r r2 x y x2 y2
  | _, none, _, _, _, _ => false

/-- One iteration of the cardinal loop of `Adjacent` at offset `(dx, dy)`:
skip if the target cell is entity-occupied, resolves to no room, holds
furniture, or is not connected; otherwise produce the target vertex with
weight 1 (the value also recorded in `moves`). -/
def adjCardinal (g : Game) (room? : Option Room) (x y dx dy : Int) :
    Option (Int × ℚ) :=
  let tx := x + dx
  let ty := y + dy
  if entOccupied g.Ents tx ty then none
  else
    match (FromVertex g.rooms (ToVertex g.rooms tx ty)).1 with
    | none => none
    | some troom =>
      if (furnitureAt troom (tx - troom.X) (ty - troom.Y)).isSome then none
      else if ¬ connectedO room? troom x y tx ty then none
      else some (ToVertex g.rooms tx ty, 1)

/-- The `moves` array entry read by the diagonal loop: `moves[dx+1][1]` and
`moves[1][dy+1]` are 1 exactly when the corresponding cardinal direction was
added (the cardinal loop is the only writer of those entries; `moves[1][1]`
is never written and stays 0). -/
def movesVal (g : Game) (room? : Option Room) (x y dx dy : Int) : ℚ :=
  if dx = 0 ∧ dy = 0 then 0
  else if (adjCardinal g room? x y dx dy).isSome then 1 else 0

/-- One iteration of the diagonal loop of `Adjacent` at offset `(dx, dy)`:
the cardinal checks plus the reverse `connected` query and the requirement
that both contributing cardinal `moves` entries are nonzero; the weight is
the average of those two entries. -/
def adjDiagonal (g : Game) (room? : Option Room) (x y dx dy : Int) :
    Option (Int × ℚ) :=
  let tx := x + dx
  let ty := y + dy
  if entOccupied g.Ents tx ty then none
  else
    match (FromVertex g.rooms (ToVertex g.rooms tx ty)).1 with
    | none => none
    | some troom =>
      if (furnitureAt troom (tx - troom.X) (ty - troom.Y)).isSome then none
      else if ¬ connectedO room? troom x y tx ty then none
      else if ¬ connectedO2 troom room? tx ty x y then none
      else if movesVal g room? x y dx 0 = 0 ∨ movesVal g room? x y 0 dy = 0 then none
      else some (ToVertex g.rooms tx ty,
                 (movesVal g room? x y dx 0 + movesVal g room? x y 0 dy) / 2)

/-- The offsets visited by the cardinal loop of `Adjacent` (exactly one of
`dx`, `dy` nonzero), in loop order. -/
def cardinalOffsets : List (Int × Int) := [(-1, 0), (0, -1), (0, 1), (1, 0)]

/-- The offsets visited by the diagonal loop of `Adjacent` (`dx` and `dy`
both zero or both nonzero), in loop order; `(0, 0)` is always skipped by the
`moves` check since `moves[1][1]` is never set. -/
def diagonalOffsets : List (Int × Int) := [(-1, -1), (-1, 1), (0, 0), (1, -1), (1, 1)]

/-- `Adjacent` from src/game/los.go: decode the vertex, run the cardinal loop
and then the diagonal loop, collecting `(vertex, weight)` pairs (the source's
two parallel slices). -/
def Adjacent (g : Game) (v : Int) : List (Int × ℚ) :=
  match FromVertex g.rooms v with
  | (room?, x, y) =>
    cardinalOffsets.filterMap (fun d => adjCardinal g room? x y d.1 d.2) ++
    diagonalOffsets.filterMap (fun d => adjDiagonal g room? x y d.1 d.2)

/-- Insert-if-absent on a key list: the model of `m[p] = true` on a Go
`map[[2]int]bool`. -/
def markCell (los : List (Int × Int)) (p : Int × Int) : List (Int × Int) :=
  if p ∈ los then los else p :: los

/-- The furniture stopping test of `doLos` on a resolved room:
`furn != nil && furn.Blocks_los`. -/
def furnBlocksLos (room : Room) (x y : Int) : Bool :=
  match furnitureAt room x y with
  | some furn => furn.Blocks_los
  | none => false

/-- Whether floor cell `(x, y)` holds furniture that blocks line of sight
(the stopping test of `doLos`, combining `roomAt` and `furnitureAt`). -/
def blocksLosAt (f : Floor) (p : Int × Int) : Bool :=
  match roomAt f p.1 p.2 with
  | none => false
  | some room => furnBlocksLos room (p.1 - room.X) (p.2 - room.Y)

/-- The connectivity stopping tests of the `doLos` loop body: for an
axis-aligned step, a changed room must be `connected`; for a diagonal step
the four corner-room checks of the source must all pass (each `return` of
the source is one disjunct). -/
def doLosStop (f : Floor) (room0? : Option Room) (room : Room)
    (x y x0 y0 : Int) : Bool :=
  if x = x0 ∨ y = y0 then
    match room0? with
    | some room0 => decide (room0 ≠ room) && ¬ connected room room0 x y x0 y0
    | none => false
  else
    let roomA := roomAt f x0 y0
    let roomB := roomAt f x y0
    let roomC := roomAt f x0 y
    (match roomA, roomB with
     | some ra, some rb => decide (ra ≠ rb) && ¬ connected ra rb x0 y0 x y0
     | _, _ => false) ||
    (match roomA, roomC with
     | some ra, some rc => decide (ra ≠ rc) && ¬ connected ra rc x0 y0 x0 y
     | _, _ => false) ||
    (match roomB with
     | some rb => decide (room ≠ rb) && ¬ connected room rb x y x y0
     | none => false) ||
    (match roomC with
     | some rc => decide (room ≠ rc) && ¬ connected room rc x y x0 y
     | none => false)

/-- The walk of `doLos` over the tail of a ray. State: remaining distance
budget, previous cell `(x0, y0)` (the source's `x, y` before the update),
previous room (possibly nil), remaining cells, and the accumulated `los`
set. Each step mirrors the loop body of `doLos` in order: resolve the new
room (stop if nil); for an axis-aligned step require `connected` across a
room change; for a diagonal step require the four corner-room connectivity
checks; stop at sight-blocking furniture; decrement the budget and stop when
exhausted; otherwise mark the cell and continue. -/
def doLosWalk (f : Floor) :
    Int → Int → Int → Option Room → List (Int × Int) → List (Int × Int) →
    List (Int × Int)
  | _, _, _, _, [], los => los
  | dist, x0, y0, room0?, p :: rest, los =>
    match roomAt f p.1 p.2 with
    | none => los
    | some room =>
      if doLosStop f room0? room p.1 p.2 x0 y0 then los
      else if furnBlocksLos room (p.1 - room.X) (p.2 - room.Y) then los
      else if dist - 1 ≤ 0 then los
      else doLosWalk f (dist - 1) p.1 p.2 (some room) rest (markCell los p)

/-- `doLos` from src/game/los.go: mark the ray's first cell unconditionally,
then walk the rest. The empty-line case cannot arise from `DetermineLos`
(`bresenham` lines are nonempty); Go would panic there and the model returns
the set unchanged. -/
def doLos (f : Floor) (dist : Int) (line : List (Int × Int))
    (los : List (Int × Int)) : List (Int × Int) :=
  match line with
  | [] => los
  | p0 :: rest =>
    doLosWalk f dist p0.1 p0.2 (roomAt f p0.1 p0.2) rest (markCell los p0)

/-- The rays cast by `DetermineLos` from `(ex, ey)` with sight `s`, in the
source's order: for each `x` in `[ex-s, ex+s]` the rays to `(x, ey-s)` and
`(x, ey+s)`, then for each `y` in `[ey-s, ey+s]` the rays to `(ex-s, y)` and
`(ex+s, y)`. -/
def losRays (ex ey s : Int) : List (List (Int × Int)) :=
  ((intRange (ex - s) (ex + s)).flatMap (fun xx =>
    [bresenham ex ey xx (ey - s), bresenham ex ey xx (ey + s)])) ++
  ((intRange (ey - s) (ey + s)).flatMap (fun yy =>
    [bresenham ex ey (ex - s) yy, bresenham ex ey (ex + s) yy]))

/-- `DetermineLos` from src/game/los.go: skip when the position is unchanged
and `force` is unset; otherwise rebuild the `los` set by running `doLos` over
every cast ray and finally shift every recorded cell by `(+1, +1)` (the
source's explicitly flagged off-by-one kludge). -/
def DetermineLos (f : Floor) (ent : Entity) (force : Bool) : Entity :=
  if ¬ force ∧ ent.x = ent.losx ∧ ent.y = ent.losy then ent
  else
    let ex := ent.x
    let ey := ent.y
    let s := ent.sight
    let los := (losRays ex ey s).foldl (fun acc line => doLos f s line acc) []
    { ent with losx := ex, losy := ey
               los := los.map (fun p => (p.1 + 1, p.2 + 1)) }

/-- The visibility field. Modelled from the spec: `house.LosTexture` is not
among the provided sources; per spec section 3 it is "a 2D byte array
addressed by absolute floor coordinate with an offset/remap window". `vals`
gives each absolute floor coordinate's byte value (a `Nat` kept in
`[0, 255]`); the window returned by `Region()` and traversed by the decay
loop is `[x0, x0 + size - 1] × [y0, y0 + size - 1]`; `Get`/`Set` are lookup
and pointwise update of `vals`. -/
structure LosTexture : Type where
  x0 : Int
  y0 : Int
  size : Nat
  vals : Int → Int → Nat

/-- Whether `(i, j)` lies in the texture's current window (the inclusive
region iterated by `MergeLos` and decayed by `Think`). -/
def inRegion (t : LosTexture) (i j : Int) : Bool :=
  decide (t.x0 ≤ i) && decide (i ≤ t.x0 + t.size - 1) &&
  decide (t.y0 ≤ j) && decide (j ≤ t.y0 + t.size - 1)

/-- `Remap` of the texture. Modelled from the spec: remapping re-centers the
window (spec sections 3 and 4.5); cell values, addressed by absolute floor
coordinate, are preserved. -/
def remapTex (t : LosTexture) (nx ny : Int) : LosTexture :=
  { t with x0 := nx, y0 := ny }

/-- The merged visibility set of `MergeLos`: whether some entity of the list
currently sees `(i, j)` (the union map built by the first loop). -/
def mergeSet (ents : List Entity) (i j : Int) : Bool :=
  ents.any (fun e => (i, j) ∈ e.los)

/-- The effect of `MergeLos`'s two loops on one cell, given whether the cell
is in the texture region and whether it is in the merged visibility set: the
first loop drops an unmerged region cell at or above the threshold to
`thr - 1`; the second raises a merged cell below the threshold to `thr`. -/
def mergeCell (thr : Nat) (region member : Bool) (v : Nat) : Nat :=
  let v1 := if region ∧ ¬ member ∧ thr ≤ v then thr - 1 else v
  if member ∧ v1 < thr then thr else v1

/-- `MergeLos` from src/game/los.go, with `thr = house.LosVisibilityThreshold`
(a constant not among the provided sources, so kept as a parameter). The two
loops each read and write only the cell they visit, so they are embedded
pointwise by `mergeCell`: the first loop ranges over the region window and
skips merged cells; the second ranges over the merged set. -/
def MergeLos (thr : Nat) (ents : List Entity) (t : LosTexture) : LosTexture :=
  { t with vals := fun i j =>
      mergeCell thr (inRegion t i j) (mergeSet ents i j) (t.vals i j) }

/-- One cell of the decay loop of `Think`: the value moves away from the
threshold by `amt = dt / 5` (down when hidden, up when visible) and is then
clamped below by `LosMinVisibility`, below by 0 and above by 255, exactly in
the source's order. All arithmetic is on `int64`, modelled as `Int`. -/
def decayVal (minVis thr : Nat) (amt : Int) (v : Nat) : Nat :=
  let w : Int := v
  let w := if w < (thr : Int) then w - amt else w + amt
  let w := if w < (minVis : Int) then (minVis : Int) else w
  let w := if w < 0 then 0 else w
  let w := if w > 255 then 255 else w
  w.toNat

/-- The decay phase of `Think` from src/game/los.go: every cell of the pix
array (the texture window) is decayed, and if any byte changed the texture is
remapped to `(-20, -20)`. The per-cell loop is embedded pointwise; the
`mod` flag is recomputed as a search over the window. -/
def thinkDecay (minVis thr : Nat) (amt : Int) (t : LosTexture) : LosTexture :=
  let t2 : LosTexture :=
    { t with vals := fun i j =>
        if inRegion t i j then decayVal minVis thr amt (t.vals i j)
        else t.vals i j }
  let changed :=
    (intRange t.x0 (t.x0 + t.size - 1)).any (fun i =>
      (intRange t.y0 (t.y0 + t.size - 1)).any (fun j =>
        decayVal minVis thr amt (t.vals i j) ≠ t.vals i j))
  if changed then remapTex t2 (-20) (-20) else t2

/-- One visibility-field operation of the game loop: a `Think` tick (which
merges the active side's sight sets and then decays, per the source's
`Think`) or a bare `MergeLos` call. -/
inductive LosOp : Type where
  | tick : Int → List Entity → LosOp
  | merge : List Entity → LosOp

/-- Apply one `LosOp` to the field. A tick performs `MergeLos` followed by
the decay phase, as in the source's `Think`. -/
def applyLosOp (minVis thr : Nat) (t : LosTexture) : LosOp → LosTexture
  | .tick amt ents => thinkDecay minVis thr amt (MergeLos thr ents t)
  | .merge ents => MergeLos thr ents t

/-- Apply a sequence of visibility-field operations in order. -/
def applyLosOps (minVis thr : Nat) (ops : List LosOp) (t : LosTexture) :
    LosTexture :=
  ops.foldl (applyLosOp minVis thr) t

/-- The Chebyshev distance between two cells: the number of ray steps needed
to get from one to the other (each Bresenham step moves one unit on the major
axis and at most one on the minor axis). -/
def cheb (p q : Int × Int) : Int :=
  max (p.1 - q.1).natAbs (p.2 - q.2).natAbs

/-- The length of the wall a door sits on: `Size.Dx` for the near-right /
far-left walls (which run along the x axis), `Size.Dy` for the other two. -/
def wallLength (room : Room) (door : Door) : Int :=
  if door.Facing = FarLeft ∨ door.Facing = NearRight then room.Size.Dx
  else room.Size.Dy

/-- The `Cell_data` index probed by `canAddDoor` for wall offset `pos` of a
door: offset along x at the fixed wall row for FarLeft/NearRight, offset
along y at the fixed wall column for FarRight/NearLeft. -/
def doorCellAt (room : Room) (door : Door) (pos : Int) : Int × Int :=
  match door.Facing with
  | FarLeft => (pos, room.Size.Dy - 1)
  | NearRight => (pos, 0)
  | FarRight => (room.Size.Dx - 1, pos)
  | NearLeft => (0, pos)

/-- Consecutive cells of the list are at Chebyshev distance at most 1 (every
Bresenham ray satisfies this). -/
def chainNear : List (Int × Int) → Prop
  | [] => True
  | [_] => True
  | a :: b :: rest => cheb b a ≤ 1 ∧ chainNear (b :: rest)

/-- A 3 by 3 room at the origin with every cell door-capable and no doors,
furniture or entities; used by concrete witness instantiations. -/
def testRoom3 : Room :=
  ⟨0, 0, ⟨3, 3⟩, List.replicate 3 (List.replicate 3 true), [], []⟩

/-- A one-room game with no entities, used by concrete witness
instantiations. -/
def testGame : Game :=
  { rooms := [testRoom3], Ents := [] }

/-! ### Helper lemmas -/

theorem mem_intRangeAux {lo v : Int} {n : Nat} :
    v ∈ intRangeAux lo n ↔ lo ≤ v ∧ v < lo + n := by
  induction n generalizing lo with
  | zero => simp [intRangeAux]
  | succ k ih =>
    simp only [intRangeAux, List.mem_cons, ih]
    constructor
    · rintro (rfl | ⟨h1, h2⟩) <;> omega
    · rintro ⟨h1, h2⟩
      by_cases hv : v = lo
      · exact Or.inl hv
      · exact Or.inr ⟨by omega, by omega⟩

theorem mem_intRange {lo hi v : Int} : v ∈ intRange lo hi ↔ lo ≤ v ∧ v ≤ hi := by
  unfold intRange
  rw [mem_intRangeAux]
  omega

/-! ### C10: Near-facing doors can never be placed through the floor -/

/-- Claim C10: for every floor, target room and door whose facing is NearLeft
or NearRight, `findRoomForDoor` returns no partner room (regardless of the
rooms and doors on the floor), hence the floor-level `canAddDoor` returns
false: only Far-facing doors can be placed through the floor interface. -/
theorem findRoomForDoor_near_facing_fails (reg : String → Int) (f : Floor)
    (target : Room) (door : Door)
    (h : door.Facing = NearLeft ∨ door.Facing = NearRight) :
    findRoomForDoor reg f target door = none ∧
    floorCanAddDoor reg f target door = false := by
  have hmain : findRoomForDoor reg f target door = none := by
    unfold findRoomForDoor
    rcases h with h | h <;> simp [h]
  exact ⟨hmain, by simp [floorCanAddDoor, hmain]⟩

/-- Witness instantiating `findRoomForDoor_near_facing_fails` at a concrete
floor, room and NearLeft door. -/
theorem findRoomForDoor_near_facing_fails_witness :
    ((⟨"d", 2, NearLeft, 1, false⟩ : Door).Facing = NearLeft ∨
     (⟨"d", 2, NearLeft, 1, false⟩ : Door).Facing = NearRight) ∧
    findRoomForDoor (fun _ => 2)
      ⟨[⟨0, 0, ⟨5, 5⟩, List.replicate 5 (List.replicate 5 true), [], []⟩]⟩
      ⟨0, 0, ⟨5, 5⟩, List.replicate 5 (List.replicate 5 true), [], []⟩
      ⟨"d", 2, NearLeft, 1, false⟩ = none ∧
    floorCanAddDoor (fun _ => 2)
      ⟨[⟨0, 0, ⟨5, 5⟩, List.replicate 5 (List.replicate 5 true), [], []⟩]⟩
      ⟨0, 0, ⟨5, 5⟩, List.replicate 5 (List.replicate 5 true), [], []⟩
      ⟨"d", 2, NearLeft, 1, false⟩ = false := by
  refine ⟨Or.inl rfl, ?_⟩
  exact findRoomForDoor_near_facing_fails _ _ _ _ (Or.inl rfl)

/-! ### C7: MergeLos is idempotent -/

theorem mergeCell_idem (thr : Nat) (region member : Bool) (v : Nat) :
    mergeCell thr region member (mergeCell thr region member v) =
      mergeCell thr region member v := by
  unfold mergeCell
  rcases region <;> rcases member <;> simp <;> split_ifs <;> omega

/-- Claim C7: `MergeLos` is idempotent - applying it twice with the same
entity set (whose `los` sets are unchanged between the calls) leaves the
field in the same state as applying it once. -/
theorem MergeLos_idempotent (thr : Nat) (ents : List Entity) (t : LosTexture) :
    MergeLos thr ents (MergeLos thr ents t) = MergeLos thr ents t := by
  unfold MergeLos
  congr 1
  funext i j
  show mergeCell thr (inRegion t i j) (mergeSet ents i j)
      (mergeCell thr (inRegion t i j) (mergeSet ents i j) (t.vals i j)) =
    mergeCell thr (inRegion t i j) (mergeSet ents i j) (t.vals i j)
  exact mergeCell_idem thr _ _ _

/-! ### C1 / C2: the door scan of `connected` -/

theorem connectedDoorScan_eq_find (facing : WallFacing) (x y : Int)
    (doors : List Door) :
    connectedDoorScan facing x y doors =
      ((doors.find? (fun d => decide (d.Facing = facing) &&
          decide (d.Pos ≤ wallCoord facing x y) &&
          decide (wallCoord facing x y < d.Pos + d.Width))).map
        Door.Opened).getD false := by
  induction doors with
  | nil => rfl
  | cons d rest ih =>
    simp only [connectedDoorScan, List.find?]
    by_cases hf : d.Facing = facing
    · by_cases hspan : d.Pos ≤ wallCoord facing x y ∧
          wallCoord facing x y < d.Pos + d.Width
      · simp [hf, hspan.1, hspan.2]
      · rw [if_neg (by simp [hf]), if_neg hspan, ih]
        rcases Decidable.not_and_iff_or_not.mp hspan with h | h <;> simp [h]
    · rw [if_pos (by simp [hf]), ih]
      simp [hf]

/-- Claim C1: for distinct rooms joined by a single matched door `d` (the
door pair's instance on `r`, on the facing deduced for the transition), a
closed door never connects, and an open door connects exactly the transitions
whose wall coordinate lies within `[Pos, Pos + Width)`. -/
theorem connected_matched_door (r r2 : Room) (d : Door) (x y x2 y2 : Int)
    (facing : WallFacing) (hne : r ≠ r2) (hdoors : r.Doors = [d])
    (hfac : deducedFacing (x - r.X) (y - r.Y) (x2 - r2.X) (y2 - r2.Y) = some facing)
    (hdf : d.Facing = facing) :
    (d.Opened = false → connected r r2 x y x2 y2 = false) ∧
    (d.Opened = true →
      (connected r r2 x y x2 y2 = true ↔
        (d.Pos ≤ wallCoord facing (x - r.X) (y - r.Y) ∧
         wallCoord facing (x - r.X) (y - r.Y) < d.Pos + d.Width))) := by
  have hconn : connected r r2 x y x2 y2 =
      (d.Opened && decide (d.Pos ≤ wallCoord facing (x - r.X) (y - r.Y) ∧
        wallCoord facing (x - r.X) (y - r.Y) < d.Pos + d.Width)) := by
    unfold connected
    rw [if_neg hne, hfac, hdoors]
    show connectedDoorScan facing (x - r.X) (y - r.Y) [d] = _
    rw [connectedDoorScan_eq_find]
    by_cases hspan : d.Pos ≤ wallCoord facing (x - r.X) (y - r.Y) ∧
        wallCoord facing (x - r.X) (y - r.Y) < d.Pos + d.Width
    · simp [List.find?, hdf, hspan.1, hspan.2]
    · rcases Decidable.not_and_iff_or_not.mp hspan with h | h <;>
        simp [List.find?, hdf, h]
  constructor
  · intro hop
    simp [hconn, hop]
  · intro hop
    simp [hconn, hop]

/-- Witness instantiating `connected_matched_door`: two 5 by 5 rooms side by
side, an open width-2 door at position 1 on the shared FarRight wall, and the
transition from cell `(4, 2)` to `(5, 2)`. -/
theorem connected_matched_door_witness :
    ((⟨0, 0, ⟨5, 5⟩, List.replicate 5 (List.replicate 5 true),
        [⟨"w", 2, FarRight, 1, true⟩], []⟩ : Room) ≠
      (⟨5, 0, ⟨5, 5⟩, List.replicate 5 (List.replicate 5 true), [], []⟩ : Room)) ∧
    ((⟨"w", 2, FarRight, 1, true⟩ : Door).Opened = true →
      (connected
          ⟨0, 0, ⟨5, 5⟩, List.replicate 5 (List.replicate 5 true),
            [⟨"w", 2, FarRight, 1, true⟩], []⟩
          ⟨5, 0, ⟨5, 5⟩, List.replicate 5 (List.replicate 5 true), [], []⟩
          4 2 5 2 = true ↔
        ((⟨"w", 2, FarRight, 1, true⟩ : Door).Pos ≤ wallCoord FarRight 4 2 ∧
         wallCoord FarRight 4 2 <
           (⟨"w", 2, FarRight, 1, true⟩ : Door).Pos +
             (⟨"w", 2, FarRight, 1, true⟩ : Door).Width))) := by
  refine ⟨by decide, ?_⟩
  exact (connected_matched_door _ _ _ 4 2 5 2 FarRight (by decide) rfl (by decide)
    rfl).2

/-- Counterexample to claim C2 as stated: on a NearLeft transition the code
tests the door span against the y coordinate, not the x coordinate the
claim (and spec) prescribe. Concretely, with a NearLeft door at `Pos = 3`,
`Width = 1`, `Opened = true` and the transition `(0, 3) → (-1, 3)` (wall
x-coordinate 0, y-coordinate 3), `connected` returns true while the
spec-worded `connectedSpecC2` returns false. -/
theorem connected_coord_counterexample :
    connected
        ⟨0, 0, ⟨5, 5⟩, List.replicate 5 (List.replicate 5 true),
          [⟨"d", 1, NearLeft, 3, true⟩], []⟩
        ⟨-3, 0, ⟨3, 5⟩, List.replicate 3 (List.replicate 5 true), [], []⟩
        0 3 (-1) 3 = true ∧
    connectedSpecC2
        ⟨0, 0, ⟨5, 5⟩, List.replicate 5 (List.replicate 5 true),
          [⟨"d", 1, NearLeft, 3, true⟩], []⟩
        ⟨-3, 0, ⟨3, 5⟩, List.replicate 3 (List.replicate 5 true), [], []⟩
        0 3 (-1) 3 = false := by
  decide

/-- Claim C2 (amended): for distinct rooms, `connected` scans the first
room's doors on the deduced facing testing coverage with the y coordinate for
NearLeft/FarRight doors and the x coordinate for NearRight/FarLeft doors
(`wallCoord` - the coordinates in the claim are swapped); it returns the
first covering door's `Opened` flag, false when no covering door exists, and
false when the transition matches no recognized wall-crossing. -/
theorem connected_characterization (r r2 : Room) (x y x2 y2 : Int)
    (hne : r ≠ r2) :
    connected r r2 x y x2 y2 =
      match deducedFacing (x - r.X) (y - r.Y) (x2 - r2.X) (y2 - r2.Y) with
      | none => false
      | some facing =>
        ((r.Doors.find? (fun d => decide (d.Facing = facing) &&
            decide (d.Pos ≤ wallCoord facing (x - r.X) (y - r.Y)) &&
            decide (wallCoord facing (x - r.X) (y - r.Y) < d.Pos + d.Width))).map
          Door.Opened).getD false := by
  unfold connected
  rw [if_neg hne]
  cases hfac : deducedFacing (x - r.X) (y - r.Y) (x2 - r2.X) (y2 - r2.Y) with
  | none => rfl
  | some facing => exact connectedDoorScan_eq_find facing (x - r.X) (y - r.Y) r.Doors

/-- Witness instantiating `connected_characterization` at the configuration
of the counterexample (where the deduced facing is NearLeft). -/
theorem connected_characterization_witness :
    connected
        ⟨0, 0, ⟨5, 5⟩, List.replicate 5 (List.replicate 5 true),
          [⟨"d", 1, NearLeft, 3, true⟩], []⟩
        ⟨-3, 0, ⟨3, 5⟩, List.replicate 3 (List.replicate 5 true), [], []⟩
        0 3 (-1) 3 =
      match deducedFacing (0 - (0 : Int)) (3 - (0 : Int)) (-1 - (-3 : Int))
          (3 - (0 : Int)) with
      | none => false
      | some facing =>
        (((⟨0, 0, ⟨5, 5⟩, List.replicate 5 (List.replicate 5 true),
              [⟨"d", 1, NearLeft, 3, true⟩], []⟩ : Room).Doors.find?
            (fun d => decide (d.Facing = facing) &&
              decide (d.Pos ≤ wallCoord facing (0 - 0) (3 - 0)) &&
              decide (wallCoord facing (0 - 0) (3 - 0) < d.Pos + d.Width))).map
          Door.Opened).getD false :=
  connected_characterization _ _ 0 3 (-1) 3 (by decide)

/-! ### C6: door placement validation -/

theorem all_intRange_iff (lo hi : Int) (f : Int → Bool) :
    (intRange lo hi).all f = true ↔ ∀ v : Int, lo ≤ v → v ≤ hi → f v = true := by
  rw [List.all_eq_true]
  constructor
  · intro h v h1 h2
    exact h v (mem_intRange.mpr ⟨h1, h2⟩)
  · intro h v hv
    obtain ⟨h1, h2⟩ := mem_intRange.mp hv
    exact h v h1 h2

theorem canAddDoor_block_iff (p w len : Int) (f : Int → Bool) :
    ((if p + w ≥ len then false else (intRange p (p + w)).all f) = true) ↔
      (p + w < len ∧ ∀ v : Int, p ≤ v → v ≤ p + w → f v = true) := by
  by_cases h : p + w ≥ len
  · rw [if_pos h]
    simp only [Bool.false_eq_true, false_iff]
    rintro ⟨h1, -⟩
    omega
  · rw [if_neg h, all_intRange_iff]
    constructor
    · exact fun hh => ⟨by omega, hh⟩
    · exact fun hh => hh.2

theorem canAddDoor_overlap_iff (door : Door) (doors : List Door)
    (hw : 1 ≤ door.Width) (hothers : ∀ d ∈ doors, 1 ≤ d.Width) :
    (doors.all (fun other =>
        decide (other.Facing ≠ door.Facing) ||
        (!(decide (other.Pos ≥ door.Pos) && decide (other.Pos - door.Pos < door.Width)) &&
         !(decide (door.Pos ≥ other.Pos) && decide (door.Pos - other.Pos < other.Width)))) = true) ↔
      ∀ other ∈ doors, other.Facing = door.Facing →
        other.Pos + other.Width ≤ door.Pos ∨ door.Pos + door.Width ≤ other.Pos := by
  rw [List.all_eq_true]
  constructor
  · intro h other hmem hfaceq
    have h2 := h other hmem
    have h3 := hothers other hmem
    simp [hfaceq] at h2
    omega
  · intro h other hmem
    by_cases hfaceq : other.Facing = door.Facing
    · have h2 := h other hmem hfaceq
      have h3 := hothers other hmem
      simp [hfaceq]
      omega
    · simp [hfaceq]

/-- Counterexample to claim C6 as stated: `canAddDoor` is stricter than the
claimed characterization (`canAddDoorSpec`, written from the claim's words).
First configuration: a 5 by 5 all-door-capable room and a NearRight door with
`Pos = 3`, `Width = 2` - its span `[3, 5)` fits the wall of length 5 exactly,
so the claim accepts it, but the code rejects `Pos + Width ≥ Dx`. Second
configuration: a 6 by 5 room whose cell `(3, 0)` is not door-capable and a
NearRight door with `Pos = 1`, `Width = 2` - the claimed covered span is
cells 1 and 2 (both capable), but the code also checks cell
`Pos + Width = 3` and rejects. -/
theorem canAddDoor_counterexample :
    canAddDoorSpec ⟨0, 0, ⟨5, 5⟩, List.replicate 5 (List.replicate 5 true), [], []⟩
        ⟨"d", 2, NearRight, 3, false⟩ = true ∧
    canAddDoor ⟨0, 0, ⟨5, 5⟩, List.replicate 5 (List.replicate 5 true), [], []⟩
        ⟨"d", 2, NearRight, 3, false⟩ = false ∧
    canAddDoorSpec ⟨0, 0, ⟨6, 5⟩,
        [List.replicate 5 true, List.replicate 5 true, List.replicate 5 true,
         false :: List.replicate 4 true, List.replicate 5 true,
         List.replicate 5 true], [], []⟩
        ⟨"d", 2, NearRight, 1, false⟩ = true ∧
    canAddDoor ⟨0, 0, ⟨6, 5⟩,
        [List.replicate 5 true, List.replicate 5 true, List.replicate 5 true,
         false :: List.replicate 4 true, List.replicate 5 true,
         List.replicate 5 true], [], []⟩
        ⟨"d", 2, NearRight, 1, false⟩ = false := by
  decide

/-- Claim C6 (amended): `canAddDoor` returns true iff `Pos ≥ 0`, the door
fits with one spare cell (`Pos + Width < wall length`, strict), every cell of
the inclusive range `[Pos, Pos + Width]` - one cell beyond the occupied span -
is door-capable, and the span `[Pos, Pos + Width)` overlaps no existing door
on the same facing (door widths at least 1). -/
theorem canAddDoor_characterization (room : Room) (door : Door)
    (hw : 1 ≤ door.Width) (hothers : ∀ d ∈ room.Doors, 1 ≤ d.Width) :
    canAddDoor room door = true ↔
      (0 ≤ door.Pos ∧
       door.Pos + door.Width < wallLength room door ∧
       (∀ pos : Int, door.Pos ≤ pos → pos ≤ door.Pos + door.Width →
          cellCanHaveDoor room (doorCellAt room door pos).1
            (doorCellAt room door pos).2 = true) ∧
       (∀ other ∈ room.Doors, other.Facing = door.Facing →
          other.Pos + other.Width ≤ door.Pos ∨
          door.Pos + door.Width ≤ other.Pos)) := by
  by_cases hneg : door.Pos < 0
  · have hfalse : canAddDoor room door = false := by
      simp [canAddDoor, if_pos hneg]
    rw [hfalse]
    simp only [Bool.false_eq_true, false_iff]
    rintro ⟨h0, -⟩
    omega
  · cases hfc : door.Facing with
    | NearLeft =>
      have hwall : wallLength room door = room.Size.Dy := by
        simp [wallLength, hfc]
      have hcell : ∀ pos : Int, doorCellAt room door pos = (0, pos) := by
        intro pos
        simp [doorCellAt, hfc]
      have hcode : canAddDoor room door =
          ((if door.Pos + door.Width ≥ room.Size.Dy then false
            else (intRange door.Pos (door.Pos + door.Width)).all
              (fun pos => cellCanHaveDoor room 0 pos)) &&
           room.Doors.all (fun other =>
             decide (other.Facing ≠ NearLeft) ||
             (!(decide (other.Pos ≥ door.Pos) && decide (other.Pos - door.Pos < door.Width)) &&
              !(decide (door.Pos ≥ other.Pos) && decide (door.Pos - other.Pos < other.Width))))) := by
        simp [canAddDoor, if_neg hneg, hfc]
      have hdoorsAll := canAddDoor_overlap_iff door room.Doors hw hothers
      rw [hfc] at hdoorsAll
      rw [hcode, Bool.and_eq_true, canAddDoor_block_iff, hdoorsAll, hwall]
      simp only [hcell]
      constructor
      · rintro ⟨⟨h1, h2⟩, h3⟩
        exact ⟨by omega, h1, h2, h3⟩
      · rintro ⟨h0, h1, h2, h3⟩
        exact ⟨⟨h1, h2⟩, h3⟩
    | NearRight =>
      have hwall : wallLength room door = room.Size.Dx := by
        simp [wallLength, hfc]
      have hcell : ∀ pos : Int, doorCellAt room door pos = (pos, 0) := by
        intro pos
        simp [doorCellAt, hfc]
      have hcode : canAddDoor room door =
          ((if door.Pos + door.Width ≥ room.Size.Dx then false
            else (intRange door.Pos (door.Pos + door.Width)).all
              (fun pos => cellCanHaveDoor room pos 0)) &&
           room.Doors.all (fun other =>
             decide (other.Facing ≠ NearRight) ||
             (!(decide (other.Pos ≥ door.Pos) && decide (other.Pos - door.Pos < door.Width)) &&
              !(decide (door.Pos ≥ other.Pos) && decide (door.Pos - other.Pos < other.Width))))) := by
        simp [canAddDoor, if_neg hneg, hfc]
      have hdoorsAll := canAddDoor_overlap_iff door room.Doors hw hothers
      rw [hfc] at hdoorsAll
      rw [hcode, Bool.and_eq_true, canAddDoor_block_iff, hdoorsAll, hwall]
      simp only [hcell]
      constructor
      · rintro ⟨⟨h1, h2⟩, h3⟩
        exact ⟨by omega, h1, h2, h3⟩
      · rintro ⟨h0, h1, h2, h3⟩
        exact ⟨⟨h1, h2⟩, h3⟩
    | FarLeft =>
      have hwall : wallLength room door = room.Size.Dx := by
        simp [wallLength, hfc]
      have hcell : ∀ pos : Int,
          doorCellAt room door pos = (pos, room.Size.Dy - 1) := by
        intro pos
        simp [doorCellAt, hfc]
      have hcode : canAddDoor room door =
          ((if door.Pos + door.Width ≥ room.Size.Dx then false
            else (intRange door.Pos (door.Pos + door.Width)).all
              (fun pos => cellCanHaveDoor room pos (room.Size.Dy - 1))) &&
           room.Doors.all (fun other =>
             decide (other.Facing ≠ FarLeft) ||
             (!(decide (other.Pos ≥ door.Pos) && decide (other.Pos - door.Pos < door.Width)) &&
              !(decide (door.Pos ≥ other.Pos) && decide (door.Pos - other.Pos < other.Width))))) := by
        simp [canAddDoor, if_neg hneg, hfc]
      have hdoorsAll := canAddDoor_overlap_iff door room.Doors hw hothers
      rw [hfc] at hdoorsAll
      rw [hcode, Bool.and_eq_true, canAddDoor_block_iff, hdoorsAll, hwall]
      simp only [hcell]
      constructor
      · rintro ⟨⟨h1, h2⟩, h3⟩
        exact ⟨by omega, h1, h2, h3⟩
      · rintro ⟨h0, h1, h2, h3⟩
        exact ⟨⟨h1, h2⟩, h3⟩
    | FarRight =>
      have hwall : wallLength room door = room.Size.Dy := by
        simp [wallLength, hfc]
      have hcell : ∀ pos : Int,
          doorCellAt room door pos = (room.Size.Dx - 1, pos) := by
        intro pos
        simp [doorCellAt, hfc]
      have hcode : canAddDoor room door =
          ((if door.Pos + door.Width ≥ room.Size.Dy then false
            else (intRange door.Pos (door.Pos + door.Width)).all
              (fun pos => cellCanHaveDoor room (room.Size.Dx - 1) pos)) &&
           room.Doors.all (fun other =>
             decide (other.Facing ≠ FarRight) ||
             (!(decide (other.Pos ≥ door.Pos) && decide (other.Pos - door.Pos < door.Width)) &&
              !(decide (door.Pos ≥ other.Pos) && decide (door.Pos - other.Pos < other.Width))))) := by
        simp [canAddDoor, if_neg hneg, hfc]
      have hdoorsAll := canAddDoor_overlap_iff door room.Doors hw hothers
      rw [hfc] at hdoorsAll
      rw [hcode, Bool.and_eq_true, canAddDoor_block_iff, hdoorsAll, hwall]
      simp only [hcell]
      constructor
      · rintro ⟨⟨h1, h2⟩, h3⟩
        exact ⟨by omega, h1, h2, h3⟩
      · rintro ⟨h0, h1, h2, h3⟩
        exact ⟨⟨h1, h2⟩, h3⟩

/-- Witness instantiating `canAddDoor_characterization` at a concrete room
and door (a valid NearRight door: `Pos = 1`, `Width = 2` on a wall of
length 5, every cell door-capable, no other doors). -/
theorem canAddDoor_characterization_witness :
    (1 ≤ (⟨"d", 2, NearRight, 1, false⟩ : Door).Width) ∧
    (canAddDoor ⟨0, 0, ⟨5, 5⟩, List.replicate 5 (List.replicate 5 true), [], []⟩
        ⟨"d", 2, NearRight, 1, false⟩ = true ↔
      (0 ≤ (⟨"d", 2, NearRight, 1, false⟩ : Door).Pos ∧
       (⟨"d", 2, NearRight, 1, false⟩ : Door).Pos +
           (⟨"d", 2, NearRight, 1, false⟩ : Door).Width <
         wallLength ⟨0, 0, ⟨5, 5⟩, List.replicate 5 (List.replicate 5 true), [], []⟩
           ⟨"d", 2, NearRight, 1, false⟩ ∧
       (∀ pos : Int, (⟨"d", 2, NearRight, 1, false⟩ : Door).Pos ≤ pos →
          pos ≤ (⟨"d", 2, NearRight, 1, false⟩ : Door).Pos +
            (⟨"d", 2, NearRight, 1, false⟩ : Door).Width →
          cellCanHaveDoor
            ⟨0, 0, ⟨5, 5⟩, List.replicate 5 (List.replicate 5 true), [], []⟩
            (doorCellAt ⟨0, 0, ⟨5, 5⟩, List.replicate 5 (List.replicate 5 true), [], []⟩
              ⟨"d", 2, NearRight, 1, false⟩ pos).1
            (doorCellAt ⟨0, 0, ⟨5, 5⟩, List.replicate 5 (List.replicate 5 true), [], []⟩
              ⟨"d", 2, NearRight, 1, false⟩ pos).2 = true) ∧
       (∀ other ∈ (⟨0, 0, ⟨5, 5⟩, List.replicate 5 (List.replicate 5 true), [], []⟩ : Room).Doors,
          other.Facing = (⟨"d", 2, NearRight, 1, false⟩ : Door).Facing →
          other.Pos + other.Width ≤ (⟨"d", 2, NearRight, 1, false⟩ : Door).Pos ∨
          (⟨"d", 2, NearRight, 1, false⟩ : Door).Pos +
              (⟨"d", 2, NearRight, 1, false⟩ : Door).Width ≤ other.Pos))) := by
  refine ⟨by decide, ?_⟩
  exact canAddDoor_characterization _ _ (by decide) (by intro d hd; simp at hd)

/-! ### C8: visibility-field bounds invariant -/

theorem MergeLos_vals (thr : Nat) (ents : List Entity) (t : LosTexture)
    (i j : Int) :
    (MergeLos thr ents t).vals i j =
      mergeCell thr (inRegion t i j) (mergeSet ents i j) (t.vals i j) := rfl

theorem thinkDecay_vals (minVis thr : Nat) (amt : Int) (t : LosTexture)
    (i j : Int) :
    (thinkDecay minVis thr amt t).vals i j =
      if inRegion t i j then decayVal minVis thr amt (t.vals i j)
      else t.vals i j := by
  unfold thinkDecay remapTex
  simp only []
  split_ifs <;> simp [*]

theorem mergeCell_bounds (minVis thr : Nat) (region member : Bool) (v : Nat)
    (hmt : minVis < thr) (ht : thr ≤ 255) (hv : minVis ≤ v ∧ v ≤ 255) :
    minVis ≤ mergeCell thr region member v ∧
      mergeCell thr region member v ≤ 255 := by
  unfold mergeCell
  simp only []
  split_ifs <;> omega

theorem decayVal_bounds (minVis thr : Nat) (amt : Int) (v : Nat)
    (hm : minVis ≤ 255) :
    minVis ≤ decayVal minVis thr amt v ∧ decayVal minVis thr amt v ≤ 255 := by
  unfold decayVal
  simp only []
  split_ifs <;> omega

/-- Claim C8: starting from a field whose cells all lie in
`[LosMinVisibility, 255]`, any sequence of `Think` decay ticks and `MergeLos`
calls keeps every cell in `[LosMinVisibility, 255]` (given the spec's
constant ordering `LosMinVisibility < LosVisibilityThreshold ≤ 255`). -/
theorem losField_bounds (minVis thr : Nat) (hmt : minVis < thr)
    (ht : thr ≤ 255) (ops : List LosOp) (t : LosTexture)
    (h0 : ∀ i j : Int, minVis ≤ t.vals i j ∧ t.vals i j ≤ 255) :
    ∀ i j : Int, minVis ≤ (applyLosOps minVis thr ops t).vals i j ∧
      (applyLosOps minVis thr ops t).vals i j ≤ 255 := by
  induction ops generalizing t with
  | nil => exact h0
  | cons op rest ih =>
    show ∀ i j : Int,
      minVis ≤ (applyLosOps minVis thr rest (applyLosOp minVis thr t op)).vals i j ∧
        (applyLosOps minVis thr rest (applyLosOp minVis thr t op)).vals i j ≤ 255
    apply ih
    intro i j
    cases op with
    | merge ents =>
      rw [show applyLosOp minVis thr t (LosOp.merge ents) = MergeLos thr ents t
        from rfl, MergeLos_vals]
      exact mergeCell_bounds minVis thr _ _ _ hmt ht (h0 i j)
    | tick amt ents =>
      rw [show applyLosOp minVis thr t (LosOp.tick amt ents) =
        thinkDecay minVis thr amt (MergeLos thr ents t) from rfl,
        thinkDecay_vals]
      split_ifs
      · exact decayVal_bounds minVis thr amt _ (by omega)
      · rw [MergeLos_vals]
        exact mergeCell_bounds minVis thr _ _ _ hmt ht (h0 i j)

/-- Witness instantiating `losField_bounds` with the spec-suggested constants
`LosMinVisibility = 32`, `LosVisibilityThreshold = 200`, a concrete field at
value 100 everywhere, and one merge followed by one decay tick. -/
theorem losField_bounds_witness :
    32 < 200 ∧ 200 ≤ 255 ∧
    ∀ i j : Int,
      32 ≤ (applyLosOps 32 200 [LosOp.merge [], LosOp.tick 35 []]
        ⟨0, 0, 4, fun _ _ => 100⟩).vals i j ∧
      (applyLosOps 32 200 [LosOp.merge [], LosOp.tick 35 []]
        ⟨0, 0, 4, fun _ _ => 100⟩).vals i j ≤ 255 := by
  refine ⟨by norm_num, by norm_num, ?_⟩
  exact losField_bounds 32 200 (by norm_num) (by norm_num) _ _
    (fun i j => ⟨by norm_num, by norm_num⟩)

/-! ### Bresenham lemmas (C5, C9 and groundwork for C3) -/

theorem absIf_eq_natAbs (a : Int) :
    (if a < 0 then -a else a) = (a.natAbs : Int) := by
  split_ifs <;> omega

theorem bresLoop_length (steep : Bool) (dx dy xstep ystep : Int) :
    ∀ (n : Nat) (cx cy err : Int),
      (bresLoop steep dx dy xstep ystep n cx cy err).1.length = n := by
  intro n
  induction n with
  | zero => intro cx cy err; rfl
  | succ k ih =>
    intro cx cy err
    simp only [bresLoop]
    split_ifs <;> simp [ih]

theorem bresLoop_finalCy (steep : Bool) (dx dy xstep ystep : Int)
    (hdy : 0 ≤ dy) (hdydx : dy ≤ dx) :
    ∀ (n : Nat) (cx cy err : Int), 0 ≤ err → err < dx →
      (bresLoop steep dx dy xstep ystep n cx cy err).2 =
        cy + ystep * (((n : Int) * dy + (dx - 1 - err)) / dx) := by
  intro n
  induction n with
  | zero =>
    intro cx cy err h1 h2
    show cy = cy + ystep * (((0 : Nat) * dy + (dx - 1 - err)) / dx)
    rw [show ((0 : Nat) : Int) * dy + (dx - 1 - err) = dx - 1 - err by ring,
      Int.ediv_eq_zero_of_lt (by omega) (by omega)]
    ring
  | succ k ih =>
    intro cx cy err h1 h2
    simp only [bresLoop]
    split_ifs with h
    · rw [ih (cx + xstep) (cy + ystep) (err - dy + dx) (by omega) (by omega)]
      rw [show ((k + 1 : Nat) : Int) * dy + (dx - 1 - err) =
        ((k : Int) * dy + (dx - 1 - (err - dy + dx))) + 1 * dx by push_cast; ring]
      rw [Int.add_mul_ediv_right _ _ (by omega : dx ≠ 0)]
      ring
    · rw [ih (cx + xstep) cy (err - dy) (by omega) (by omega)]
      rw [show ((k + 1 : Nat) : Int) * dy + (dx - 1 - err) =
        ((k : Int) * dy + (dx - 1 - (err - dy))) by push_cast; ring]

theorem bresLoop_append_head (steep : Bool) (dx dy xstep ystep : Int)
    (n : Nat) (cx cy err : Int) (p : Int × Int) :
    ((bresLoop steep dx dy xstep ystep n cx cy err).1 ++ [p]).head? =
      some (if n = 0 then p else swizzle steep cx cy) := by
  cases n with
  | zero => rfl
  | succ k =>
    rw [if_neg (Nat.succ_ne_zero k)]
    simp only [bresLoop]
    split_ifs <;> rfl

theorem cheb_self (p : Int × Int) : cheb p p = 0 := by
  simp [cheb]

theorem cheb_triangle (a b c : Int × Int) :
    cheb a c ≤ cheb a b + cheb b c := by
  unfold cheb
  omega

theorem cheb_swizzle (steep : Bool) (a b c d : Int) :
    cheb (swizzle steep a b) (swizzle steep c d) = cheb (a, b) (c, d) := by
  cases steep
  · simp [swizzle, cheb]
  · simp [swizzle, cheb]
    omega

theorem chainNear_cons (a : Int × Int) (l : List (Int × Int))
    (h : ∀ b, l.head? = some b → cheb b a ≤ 1) (hl : chainNear l) :
    chainNear (a :: l) := by
  cases l with
  | nil => trivial
  | cons b rest => exact ⟨h b rfl, hl⟩

theorem chainNear_get : ∀ (l : List (Int × Int)), chainNear l →
    ∀ (a : Int × Int), l.head? = some a →
    ∀ (j : Nat) (c : Int × Int), l.get? j = some c → cheb c a ≤ (j : Int) := by
  intro l
  induction l with
  | nil =>
    intro _ a ha
    simp at ha
  | cons p rest ih =>
    intro hchain a ha j c hc
    have hap : a = p := by
      simp at ha
      exact ha.symm
    cases j with
    | zero =>
      have hcp : c = p := by
        simp [List.get?] at hc
        exact hc.symm
      rw [hap, hcp, cheb_self]
      simp
    | succ i =>
      have hc2 : rest.get? i = some c := hc
      cases rest with
      | nil => simp [List.get?] at hc2
      | cons b rest2 =>
        obtain ⟨h1, h2⟩ := hchain
        have h3 := ih h2 b rfl i c hc2
        have h4 := cheb_triangle c b p
        rw [hap]
        push_cast
        omega

theorem bresLoop_chain (steep : Bool) (dx dy xstep ystep : Int)
    (hx : xstep = 1 ∨ xstep = -1) (hy : ystep = 1 ∨ ystep = -1) :
    ∀ (n : Nat) (cx cy err : Int),
      chainNear ((bresLoop steep dx dy xstep ystep n cx cy err).1 ++
        [swizzle steep (cx + xstep * n) ((bresLoop steep dx dy xstep ystep n cx cy err).2)]) := by
  intro n
  induction n with
  | zero =>
    intro cx cy err
    show chainNear [swizzle steep (cx + xstep * 0) cy]
    simp [chainNear]
  | succ k ih =>
    intro cx cy err
    simp only [bresLoop]
    split_ifs with h
    · have e : cx + xstep * ((k + 1 : Nat) : Int) = (cx + xstep) + xstep * (k : Nat) := by
        push_cast
        ring
      rw [e, List.cons_append]
      apply chainNear_cons
      · intro b hb
        rw [bresLoop_append_head] at hb
        have hb2 : b = (if k = 0 then
            swizzle steep (cx + xstep + xstep * (k : Nat))
              ((bresLoop steep dx dy xstep ystep k (cx + xstep) (cy + ystep) (err - dy + dx)).2)
          else swizzle steep (cx + xstep) (cy + ystep)) := by
          injection hb with hb
          exact hb.symm
        have hk0 : k = 0 →
            (bresLoop steep dx dy xstep ystep k (cx + xstep) (cy + ystep) (err - dy + dx)).2 =
              cy + ystep := by
          intro hk
          subst hk
          rfl
        rcases Decidable.em (k = 0) with hk | hk
        · rw [hb2, if_pos hk, hk0 hk, hk]
          rw [show cx + xstep + xstep * ((0 : Nat) : Int) = cx + xstep by push_cast; ring]
          rw [cheb_swizzle]
          unfold cheb
          rcases hx with rfl | rfl <;> rcases hy with rfl | rfl <;> simp
        · rw [hb2, if_neg hk, cheb_swizzle]
          unfold cheb
          rcases hx with rfl | rfl <;> rcases hy with rfl | rfl <;> simp
      · exact ih (cx + xstep) (cy + ystep) (err - dy + dx)
    · have e : cx + xstep * ((k + 1 : Nat) : Int) = (cx + xstep) + xstep * (k : Nat) := by
        push_cast
        ring
      rw [e, List.cons_append]
      apply chainNear_cons
      · intro b hb
        rw [bresLoop_append_head] at hb
        have hb2 : b = (if k = 0 then
            swizzle steep (cx + xstep + xstep * (k : Nat))
              ((bresLoop steep dx dy xstep ystep k (cx + xstep) cy (err - dy)).2)
          else swizzle steep (cx + xstep) cy) := by
          injection hb with hb
          exact hb.symm
        have hk0 : k = 0 →
            (bresLoop steep dx dy xstep ystep k (cx + xstep) cy (err - dy)).2 = cy := by
          intro hk
          subst hk
          rfl
        rcases Decidable.em (k = 0) with hk | hk
        · rw [hb2, if_pos hk, hk0 hk, hk]
          rw [show cx + xstep + xstep * ((0 : Nat) : Int) = cx + xstep by push_cast; ring]
          rw [cheb_swizzle]
          unfold cheb
          rcases hx with rfl | rfl <;> simp
        · rw [hb2, if_neg hk, cheb_swizzle]
          unfold cheb
          rcases hx with rfl | rfl <;> simp
      · exact ih (cx + xstep) cy (err - dy)

theorem bresenhamCore_eq (steep : Bool) (x y x2 y2 : Int) :
    bresenhamCore steep x y x2 y2 =
      (bresLoop steep ((x2 - x).natAbs : Int) ((y2 - y).natAbs : Int)
        (if x2 < x then -1 else 1) (if y2 < y then -1 else 1)
        (x2 - x).natAbs x y (((x2 - x).natAbs : Int) / 2)).1 ++
      [swizzle steep x2
        (bresLoop steep ((x2 - x).natAbs : Int) ((y2 - y).natAbs : Int)
          (if x2 < x then -1 else 1) (if y2 < y then -1 else 1)
          (x2 - x).natAbs x y (((x2 - x).natAbs : Int) / 2)).2] := by
  unfold bresenhamCore
  simp only []
  rw [absIf_eq_natAbs, absIf_eq_natAbs, Int.toNat_natCast]

theorem bresenhamCore_length (steep : Bool) (x y x2 y2 : Int) :
    (bresenhamCore steep x y x2 y2).length = (x2 - x).natAbs + 1 := by
  rw [bresenhamCore_eq]
  simp [bresLoop_length]

theorem bresenhamCore_head (steep : Bool) (x y x2 y2 : Int) :
    (bresenhamCore steep x y x2 y2).head? = some (swizzle steep x y) := by
  rw [bresenhamCore_eq, bresLoop_append_head]
  by_cases h : (x2 - x).natAbs = 0
  · rw [if_pos h]
    have hx : x2 = x := by omega
    subst hx
    rw [h]
    rfl
  · rw [if_neg h]

theorem bresenhamCore_getLast (steep : Bool) (x y x2 y2 : Int)
    (h : (y2 - y).natAbs ≤ (x2 - x).natAbs) :
    (bresenhamCore steep x y x2 y2).getLast? = some (swizzle steep x2 y2) := by
  rw [bresenhamCore_eq, List.getLast?_concat]
  by_cases h0 : (x2 - x).natAbs = 0
  · rw [h0]
    have hy2 : y2 = y := by omega
    have hx2 : x2 = x := by omega
    rw [hy2]
    rfl
  · rw [bresLoop_finalCy steep _ _ _ _ (by omega) (by exact_mod_cast h)
      _ x y _ (by omega) (by omega)]
    have hq : (((x2 - x).natAbs : Int) * ((y2 - y).natAbs : Int) +
        (((x2 - x).natAbs : Int) - 1 - ((x2 - x).natAbs : Int) / 2)) /
          ((x2 - x).natAbs : Int) = ((y2 - y).natAbs : Int) := by
      rw [show (((x2 - x).natAbs : Int) * ((y2 - y).natAbs : Int) +
          (((x2 - x).natAbs : Int) - 1 - ((x2 - x).natAbs : Int) / 2)) =
        (((x2 - x).natAbs : Int) - 1 - ((x2 - x).natAbs : Int) / 2) +
          ((y2 - y).natAbs : Int) * ((x2 - x).natAbs : Int) by ring]
      rw [Int.add_mul_ediv_right _ _ (by omega : ((x2 - x).natAbs : Int) ≠ 0),
        Int.ediv_eq_zero_of_lt (by omega) (by omega)]
      omega
    rw [hq]
    split_ifs with hy
    · rw [show y + -1 * (((y2 - y).natAbs : Int)) = y2 by omega]
    · rw [show y + 1 * (((y2 - y).natAbs : Int)) = y2 by omega]

theorem bresenhamCore_chain (steep : Bool) (x y x2 y2 : Int) :
    chainNear (bresenhamCore steep x y x2 y2) := by
  rw [bresenhamCore_eq]
  have hfin : x2 = x + (if x2 < x then (-1 : Int) else 1) * ((x2 - x).natAbs : Nat) := by
    split_ifs <;> omega
  rw [show swizzle steep x2
      (bresLoop steep ((x2 - x).natAbs : Int) ((y2 - y).natAbs : Int)
        (if x2 < x then -1 else 1) (if y2 < y then -1 else 1)
        (x2 - x).natAbs x y (((x2 - x).natAbs : Int) / 2)).2 =
    swizzle steep (x + (if x2 < x then (-1 : Int) else 1) * ((x2 - x).natAbs : Nat))
      (bresLoop steep ((x2 - x).natAbs : Int) ((y2 - y).natAbs : Int)
        (if x2 < x then -1 else 1) (if y2 < y then -1 else 1)
        (x2 - x).natAbs x y (((x2 - x).natAbs : Int) / 2)).2 by rw [← hfin]]
  exact bresLoop_chain steep _ _ _ _
    (by split_ifs <;> simp) (by split_ifs <;> simp) _ x y _

theorem bresenhamCore_get (steep : Bool) (x y x2 y2 : Int) (j : Nat)
    (c : Int × Int) (hc : (bresenhamCore steep x y x2 y2).get? j = some c) :
    cheb c (swizzle steep x y) ≤ (j : Int) :=
  chainNear_get _ (bresenhamCore_chain steep x y x2 y2) _
    (bresenhamCore_head steep x y x2 y2) j c hc

theorem bresenham_eq (x y x2 y2 : Int) :
    bresenham x y x2 y2 =
      if ((y2 - y).natAbs : Int) > ((x2 - x).natAbs : Int) then
        bresenhamCore true y x y2 x2
      else bresenhamCore false x y x2 y2 := by
  unfold bresenham
  simp only []
  rw [absIf_eq_natAbs, absIf_eq_natAbs]

theorem bresenham_head (x y x2 y2 : Int) :
    (bresenham x y x2 y2).head? = some (x, y) := by
  rw [bresenham_eq]
  split_ifs <;> rw [bresenhamCore_head] <;> simp [swizzle]

theorem bresenham_getLast (x y x2 y2 : Int) :
    (bresenham x y x2 y2).getLast? = some (x2, y2) := by
  rw [bresenham_eq]
  split_ifs with h
  · rw [bresenhamCore_getLast true y x y2 x2 (by omega)]
    simp [swizzle]
  · rw [bresenhamCore_getLast false x y x2 y2 (by omega)]
    simp [swizzle]

theorem bresenham_length (x y x2 y2 : Int) :
    (bresenham x y x2 y2).length =
      max (x2 - x).natAbs (y2 - y).natAbs + 1 := by
  rw [bresenham_eq]
  split_ifs with h <;> rw [bresenhamCore_length] <;> omega

theorem bresenham_get (x y x2 y2 : Int) (j : Nat) (c : Int × Int)
    (hc : (bresenham x y x2 y2).get? j = some c) :
    cheb c (x, y) ≤ (j : Int) := by
  rw [bresenham_eq] at hc
  by_cases h : ((y2 - y).natAbs : Int) > ((x2 - x).natAbs : Int)
  · rw [if_pos h] at hc
    have := bresenhamCore_get true y x y2 x2 j c hc
    simpa [swizzle] using this
  · rw [if_neg h] at hc
    have := bresenhamCore_get false x y x2 y2 j c hc
    simpa [swizzle] using this

/-- Claim C5: `bresenham(x0, y0, x1, y1)` is an ordered cell sequence
starting at `(x0, y0)`, ending at `(x1, y1)`, of exactly
`max(|x1 - x0|, |y1 - y0|) + 1` cells; in particular the degenerate ray is
the single cell and `bresenham 0 0 5 0` is the six-cell horizontal run. -/
theorem bresenham_contract (x y x2 y2 : Int) :
    (bresenham x y x2 y2).head? = some (x, y) ∧
    (bresenham x y x2 y2).getLast? = some (x2, y2) ∧
    (bresenham x y x2 y2).length = max (x2 - x).natAbs (y2 - y).natAbs + 1 ∧
    bresenham x y x y = [(x, y)] ∧
    bresenham 0 0 5 0 = [(0, 0), (1, 0), (2, 0), (3, 0), (4, 0), (5, 0)] := by
  refine ⟨bresenham_head x y x2 y2, bresenham_getLast x y x2 y2,
    bresenham_length x y x2 y2, ?_, by decide⟩
  have h1 : (bresenham x y x y).length = 1 := by
    rw [bresenham_length]
    simp
  obtain ⟨a, ha⟩ := List.length_eq_one.mp h1
  have h2 := bresenham_head x y x y
  rw [ha] at h2 ⊢
  simp at h2
  rw [h2]

/-- Counterexample to claim C9 as stated: at endpoints `(0,0)` and `(2,1)`
the reversed sequences differ (Bresenham's rounding is not symmetric in the
direction of traversal: forward it yields `(1,0)`, backward `(1,1)`). -/
theorem bresenham_reverse_counterexample :
    ¬ ((bresenham 0 0 2 1).reverse = (bresenham 2 1 0 0).reverse) := by
  decide

/-- Claim C9 (amended): the two opposite traversals agree on endpoints and
length - `bresenham(c,d,a,b)` reversed starts where `bresenham(a,b,c,d)`
starts, ends where it ends, and has the same number of cells - but not
cell-for-cell. -/
theorem bresenham_reverse_relation (a b c d : Int) :
    (bresenham c d a b).reverse.head? = (bresenham a b c d).head? ∧
    (bresenham c d a b).reverse.getLast? = (bresenham a b c d).getLast? ∧
    (bresenham c d a b).reverse.length = (bresenham a b c d).length := by
  refine ⟨?_, ?_, ?_⟩
  · rw [List.head?_reverse, bresenham_getLast, bresenham_head]
  · rw [List.getLast?_reverse, bresenham_head, bresenham_getLast]
  · rw [List.length_reverse, bresenham_length, bresenham_length]
    omega

/-! ### C4: diagonal adjacency -/

theorem movesVal_zero_or_one (g : Game) (room? : Option Room) (x y dx dy : Int) :
    movesVal g room? x y dx dy = 0 ∨ movesVal g room? x y dx dy = 1 := by
  unfold movesVal
  split_ifs <;> simp

theorem movesVal_ne_zero_isSome (g : Game) (room? : Option Room)
    (x y dx dy : Int) (h : movesVal g room? x y dx dy ≠ 0) :
    (adjCardinal g room? x y dx dy).isSome = true ∧
      movesVal g room? x y dx dy = 1 := by
  unfold movesVal at h ⊢
  split_ifs at h ⊢ with h1 h2
  · exact absurd rfl h
  · exact ⟨h2, rfl⟩
  · exact absurd rfl h

/-- Claim C4: whenever `Adjacent` produces a diagonal neighbor, both
contributing cardinal directions were added as open edges, connectivity holds
in both directions across the diagonal step, and the edge weight is the
average of the two contributing cardinal weights (each 1 in the `moves`
grid). -/
theorem Adjacent_diagonal (g : Game) (v : Int) (room? : Option Room)
    (x y dx dy : Int) (u : Int) (w : ℚ)
    (hdx : dx = -1 ∨ dx = 1) (hdy : dy = -1 ∨ dy = 1)
    (hv : FromVertex g.rooms v = (room?, x, y))
    (hd : adjDiagonal g room? x y dx dy = some (u, w)) :
    (u, w) ∈ Adjacent g v ∧
    (adjCardinal g room? x y dx 0).isSome = true ∧
    (adjCardinal g room? x y 0 dy).isSome = true ∧
    (∃ troom : Room,
      (FromVertex g.rooms (ToVertex g.rooms (x + dx) (y + dy))).1 = some troom ∧
      connectedO room? troom x y (x + dx) (y + dy) = true ∧
      connectedO2 troom room? (x + dx) (y + dy) x y = true) ∧
    w = (movesVal g room? x y dx 0 + movesVal g room? x y 0 dy) / 2 ∧
    movesVal g room? x y dx 0 = 1 ∧ movesVal g room? x y 0 dy = 1 := by
  have hd0 := hd
  unfold adjDiagonal at hd
  simp only [] at hd
  by_cases h1 : entOccupied g.Ents (x + dx) (y + dy) = true
  · rw [if_pos h1] at hd
    exact absurd hd (by simp)
  · rw [if_neg h1] at hd
    cases hfv : (FromVertex g.rooms (ToVertex g.rooms (x + dx) (y + dy))).1 with
    | none =>
      rw [hfv] at hd
      exact absurd hd (by simp)
    | some troom =>
      rw [hfv] at hd
      simp only [] at hd
      by_cases h2 : (furnitureAt troom (x + dx - troom.X) (y + dy - troom.Y)).isSome = true
      · rw [if_pos h2] at hd
        exact absurd hd (by simp)
      · rw [if_neg h2] at hd
        by_cases h3 : connectedO room? troom x y (x + dx) (y + dy) = true
        case neg =>
          rw [if_pos (by simpa using h3)] at hd
          exact absurd hd (by simp)
        case pos =>
        rw [if_neg (by simpa using h3)] at hd
        by_cases h4 : connectedO2 troom room? (x + dx) (y + dy) x y = true
        case neg =>
          rw [if_pos (by simpa using h4)] at hd
          exact absurd hd (by simp)
        case pos =>
        rw [if_neg (by simpa using h4)] at hd
        by_cases h5 : movesVal g room? x y dx 0 = 0 ∨ movesVal g room? x y 0 dy = 0
        case pos =>
          rw [if_pos h5] at hd
          exact absurd hd (by simp)
        case neg =>
        rw [if_neg h5] at hd
        have h6 : movesVal g room? x y dx 0 ≠ 0 := fun hc => h5 (Or.inl hc)
        have h7 : movesVal g room? x y 0 dy ≠ 0 := fun hc => h5 (Or.inr hc)
        obtain ⟨h6s, h6v⟩ := movesVal_ne_zero_isSome g room? x y dx 0 h6
        obtain ⟨h7s, h7v⟩ := movesVal_ne_zero_isSome g room? x y 0 dy h7
        have hu : ToVertex g.rooms (x + dx) (y + dy) = u ∧
            (movesVal g room? x y dx 0 + movesVal g room? x y 0 dy) / 2 = w := by
          have := hd
          injection this with h8
          exact ⟨congrArg Prod.fst h8, congrArg Prod.snd h8⟩
        refine ⟨?_, h6s, h7s, ⟨troom, rfl, h3, h4⟩, hu.2.symm, h6v, h7v⟩
        unfold Adjacent
        rw [hv]
        simp only []
        rw [List.mem_append]
        right
        rw [List.mem_filterMap]
        refine ⟨(dx, dy), ?_, hd0⟩
        rcases hdx with rfl | rfl <;> rcases hdy with rfl | rfl <;> decide

/-- Witness instantiating `Adjacent_diagonal`: a single 3 by 3 room with no
furniture, doors or entities; from the center vertex the `(+1, +1)` diagonal
neighbor is produced with weight 1. -/
theorem Adjacent_diagonal_witness :
    ((1 : Int) = -1 ∨ (1 : Int) = 1) ∧
    FromVertex testGame.rooms 4 = (some testRoom3, 1, 1) ∧
    adjDiagonal testGame (some testRoom3) 1 1 1 1 = some (8, 1) ∧
    ((8 : Int), (1 : ℚ)) ∈ Adjacent testGame 4 := by
  have hm1 : movesVal testGame (some testRoom3) 1 1 1 0 = 1 := by
    unfold movesVal
    rw [if_neg (by norm_num), if_pos (by decide)]
  have hm2 : movesVal testGame (some testRoom3) 1 1 0 1 = 1 := by
    unfold movesVal
    rw [if_neg (by norm_num), if_pos (by decide)]
  have hd : adjDiagonal testGame (some testRoom3) 1 1 1 1 = some (8, 1) := by
    unfold adjDiagonal
    simp only []
    rw [if_neg (by decide)]
    rw [show (FromVertex testGame.rooms (ToVertex testGame.rooms (1 + 1) (1 + 1))).1 =
      some testRoom3 from by decide]
    simp only []
    rw [if_neg (by decide), if_neg (by decide), if_neg (by decide)]
    rw [hm1, hm2, if_neg (by norm_num)]
    rw [show ToVertex testGame.rooms (1 + 1) (1 + 1) = 8 from by decide]
    norm_num
  refine ⟨Or.inr rfl, by decide, hd, ?_⟩
  exact (Adjacent_diagonal testGame 4 (some testRoom3) 1 1 1 1 8 1 (Or.inr rfl)
    (Or.inr rfl) (by decide) hd).1

/-! ### C3: line of sight is bounded by furniture blocks and sight radius -/

theorem mem_markCell (los : List (Int × Int)) (q p : Int × Int) :
    p ∈ markCell los q ↔ p ∈ los ∨ p = q := by
  unfold markCell
  split_ifs with h
  · constructor
    · exact fun hp => Or.inl hp
    · rintro (hp | rfl) <;> assumption
  · rw [List.mem_cons]
    tauto

theorem doLosWalk_mem (f : Floor) :
    ∀ (rest : List (Int × Int)) (dist x0 y0 : Int) (room0? : Option Room)
      (los : List (Int × Int)) (p : Int × Int),
      p ∈ doLosWalk f dist x0 y0 room0? rest los →
      p ∈ los ∨ ∃ j : Nat, rest.get? j = some p ∧ (j : Int) < dist - 1 ∧
        (∀ (i : Nat) (c : Int × Int), i ≤ j → rest.get? i = some c →
          blocksLosAt f c = false) := by
  intro rest
  induction rest with
  | nil =>
    intro dist x0 y0 room0? los p hp
    exact Or.inl hp
  | cons q rest ih =>
    intro dist x0 y0 room0? los p hp
    rw [doLosWalk] at hp
    cases hroom : roomAt f q.1 q.2 with
    | none =>
      rw [hroom] at hp
      exact Or.inl hp
    | some room =>
      rw [hroom] at hp
      simp only [] at hp
      split_ifs at hp with h1 h2 h3
      · exact Or.inl hp
      · exact Or.inl hp
      · exact Or.inl hp
      · have hqblock : blocksLosAt f q = false := by
          unfold blocksLosAt
          rw [hroom]
          simpa using h2
        rcases ih (dist - 1) q.1 q.2 (some room) (markCell los q) p hp with
          hin | ⟨j, hj, hjd, hjb⟩
        · rcases (mem_markCell los q p).mp hin with hin | rfl
          · exact Or.inl hin
          · refine Or.inr ⟨0, rfl, by omega, ?_⟩
            intro i c hi hc
            interval_cases i
            have hqc : p = c := by simpa using hc
            exact hqc ▸ hqblock
        · refine Or.inr ⟨j + 1, hj, by push_cast at hjd ⊢; omega, ?_⟩
          intro i c hi hc
          cases i with
          | zero =>
            have hqc : q = c := by simpa using hc
            exact hqc ▸ hqblock
          | succ i2 =>
            exact hjb i2 c (by omega) hc

theorem doLos_mem (f : Floor) (dist : Int) (line los : List (Int × Int))
    (p : Int × Int) (hp : p ∈ doLos f dist line los) :
    p ∈ los ∨ ∃ j : Nat, line.get? j = some p ∧
      (j = 0 ∨ ((j : Int) ≤ dist - 1 ∧
        ∀ (i : Nat) (c : Int × Int), 1 ≤ i → i ≤ j →
          line.get? i = some c → blocksLosAt f c = false)) := by
  cases line with
  | nil => exact Or.inl hp
  | cons p0 rest =>
    rw [doLos] at hp
    rcases doLosWalk_mem f rest dist p0.1 p0.2 (roomAt f p0.1 p0.2)
        (markCell los p0) p hp with hin | ⟨j, hj, hjd, hjb⟩
    · rcases (mem_markCell los p0 p).mp hin with hin | rfl
      · exact Or.inl hin
      · exact Or.inr ⟨0, rfl, Or.inl rfl⟩
    · refine Or.inr ⟨j + 1, hj, Or.inr ⟨by push_cast; omega, ?_⟩⟩
      intro i c h1i hij hc
      cases i with
      | zero => omega
      | succ i2 => exact hjb i2 c (by omega) hc

theorem foldl_doLos_mem (f : Floor) (dist : Int) :
    ∀ (rays : List (List (Int × Int))) (acc : List (Int × Int)) (p : Int × Int),
      p ∈ rays.foldl (fun a line => doLos f dist line a) acc →
      p ∈ acc ∨ ∃ line ∈ rays, ∃ j : Nat, line.get? j = some p ∧
        (j = 0 ∨ ((j : Int) ≤ dist - 1 ∧
          ∀ (i : Nat) (c : Int × Int), 1 ≤ i → i ≤ j →
            line.get? i = some c → blocksLosAt f c = false)) := by
  intro rays
  induction rays with
  | nil =>
    intro acc p hp
    exact Or.inl hp
  | cons l rest ih =>
    intro acc p hp
    rcases ih (doLos f dist l acc) p hp with hin | ⟨line, hline, hrest⟩
    · rcases doLos_mem f dist l acc p hin with hin2 | ⟨j, hj⟩
      · exact Or.inl hin2
      · exact Or.inr ⟨l, List.mem_cons_self l rest, j, hj⟩
    · exact Or.inr ⟨line, List.mem_cons_of_mem l hline, hrest⟩

theorem losRays_shape (ex ey s : Int) (line : List (Int × Int))
    (h : line ∈ losRays ex ey s) :
    ∃ a b : Int, line = bresenham ex ey a b := by
  unfold losRays at h
  rw [List.mem_append] at h
  rcases h with h | h <;> rw [List.mem_flatMap] at h <;>
    obtain ⟨t, ht, h⟩ := h <;> simp at h <;>
    rcases h with rfl | rfl <;> exact ⟨_, _, rfl⟩

/-- Claim C3: after `DetermineLos` recomputes an entity's `los` set, every
recorded cell, shifted back by the `(+1, +1)` kludge, lies within the
entity's `Sight()` radius (Chebyshev distance) of the entity and is reached
along one of the cast rays without passing any sight-blocking furniture tile
at an earlier step of that ray (so nothing beyond a blocking tile, or beyond
the radius, is in the set). -/
theorem DetermineLos_bounded (f : Floor) (ent : Entity) (force : Bool)
    (hrec : force = true ∨ ¬(ent.x = ent.losx ∧ ent.y = ent.losy))
    (hs : 0 ≤ ent.sight) :
    ∀ p ∈ (DetermineLos f ent force).los,
      cheb (p.1 - 1, p.2 - 1) (ent.x, ent.y) ≤ ent.sight ∧
      ∃ line ∈ losRays ent.x ent.y ent.sight, ∃ j : Nat,
        line.get? j = some (p.1 - 1, p.2 - 1) ∧
        ∀ (i : Nat) (c : Int × Int), 1 ≤ i → i ≤ j →
          line.get? i = some c → blocksLosAt f c = false := by
  intro p hp
  unfold DetermineLos at hp
  rw [if_neg (by rcases hrec with h | h <;> simp [h])] at hp
  simp only [] at hp
  rw [List.mem_map] at hp
  obtain ⟨q, hq, rfl⟩ := hp
  obtain ⟨qx, qy⟩ := q
  have hq2 : ((qx + 1, qy + 1).1 - 1, (qx + 1, qy + 1).2 - 1) = (qx, qy) := by
    simp
  rw [hq2]
  rcases foldl_doLos_mem f ent.sight (losRays ent.x ent.y ent.sight) [] (qx, qy) hq with
    hin | ⟨line, hline, j, hgetj, hcase⟩
  · simp at hin
  · obtain ⟨a, b, rfl⟩ := losRays_shape ent.x ent.y ent.sight line hline
    have hch := bresenham_get ent.x ent.y a b j (qx, qy) hgetj
    constructor
    · rcases hcase with rfl | ⟨hjs, _⟩
      · simp at hch
        omega
      · omega
    · refine ⟨bresenham ent.x ent.y a b, hline, j, hgetj, ?_⟩
      rcases hcase with rfl | ⟨_, hblocks⟩
      · intro i c hi hij hc
        omega
      · exact hblocks

/-- Witness instantiating `DetermineLos_bounded` at a concrete floor (one
3 by 3 room), an entity at `(1, 1)` with sight 1 and a forced recompute. -/
theorem DetermineLos_bounded_witness :
    ((true : Bool) = true ∨ ¬((1 : Int) = 0 ∧ (1 : Int) = 0)) ∧
    (0 : Int) ≤ (1 : Int) ∧
    ∀ p ∈ (DetermineLos ⟨[testRoom3]⟩ ⟨1, 1, 1, 0, 0, []⟩ true).los,
      cheb (p.1 - 1, p.2 - 1) (1, 1) ≤ 1 ∧
      ∃ line ∈ losRays 1 1 1, ∃ j : Nat,
        line.get? j = some (p.1 - 1, p.2 - 1) ∧
        ∀ (i : Nat) (c : Int × Int), 1 ≤ i → i ≤ j →
          line.get? i = some c → blocksLosAt ⟨[testRoom3]⟩ c = false := by
  refine ⟨Or.inl rfl, by norm_num, ?_⟩
  exact DetermineLos_bounded ⟨[testRoom3]⟩ ⟨1, 1, 1, 0, 0, []⟩ true
    (Or.inl rfl) (by norm_num)

end Haunts
